import Mathlib

/-!
Verification of the convoy-graphql core: the N+1 static analyzer
(`crates/macros/src/graphql_schema/validation.rs`, `parse.rs`, `mod.rs`,
`codegen.rs`) and the batch loader (`src/loader.rs`), embedded shallowly.
-/

namespace Convoy

/-- `BatchConfig` from `parse.rs`. -/
structure BatchConfig where
  key : String
  delay_ms : Nat
deriving DecidableEq, Repr

/-- `ParsedField` from `parse.rs` (the `syn::Type` payload is irrelevant to
validation and is omitted; `is_list` and `inner_type` are the outputs of
`analyze_type`). -/
structure ParsedField where
  name : String
  is_list : Bool
  inner_type : Option String
deriving DecidableEq, Repr

/-- `ParsedStruct` from `parse.rs`. -/
structure ParsedStruct where
  name : String
  graphql_name : String
  is_query : Bool
  is_mutation : Bool
  is_subscription : Bool
  fields : List ParsedField
deriving DecidableEq, Repr

/-- `ParsedMethod` from `parse.rs` (argument list and `syn::Type` omitted;
`is_list_return` / `inner_return_type` are the outputs of
`analyze_return_type`). -/
structure ParsedMethod where
  name : String
  batch_config : Option BatchConfig
  is_list_return : Bool
  inner_return_type : Option String
deriving DecidableEq, Repr

/-- `ParsedImpl` from `parse.rs`. -/
structure ParsedImpl where
  type_name : String
  methods : List ParsedMethod
deriving DecidableEq, Repr

/-- `ParsedModule` from `parse.rs` (module name and macro args omitted). -/
structure ParsedModule where
  structs : List ParsedStruct
  impls : List ParsedImpl
deriving DecidableEq, Repr

/-- The `list_context_types` set built in `validate_n_plus_one`
(validation.rs lines 6-26): inner types of `Vec` struct fields and of
list-returning resolver methods.  A `HashSet` is modelled as a list queried
by `contains`. -/
def listContextTypes (m : ParsedModule) : List String :=
  (m.structs.flatMap fun s =>
    s.fields.filterMap fun f => if f.is_list then f.inner_type else none)
  ++ (m.impls.flatMap fun i =>
    i.methods.filterMap fun me =>
      if me.is_list_return then me.inner_return_type else none)

/-- `find_list_context_sources` (validation.rs lines 69-92). -/
def find_list_context_sources (m : ParsedModule) (type_name : String) :
    List String :=
  (m.structs.flatMap fun s =>
    s.fields.filterMap fun f =>
      if f.is_list && f.inner_type == some type_name then
        some (s.name ++ "." ++ f.name ++ ": Vec<" ++ type_name ++ ">")
      else none)
  ++ (m.impls.flatMap fun i =>
    i.methods.filterMap fun me =>
      if me.is_list_return && me.inner_return_type == some type_name then
        some (i.type_name ++ "::" ++ me.name ++ "() -> Vec<" ++ type_name ++ ">")
      else none)

/-- The `context_hint` string built in `validate_n_plus_one`
(validation.rs lines 40-50). -/
def contextHint (m : ParsedModule) (type_name : String) : String :=
  let sources := find_list_context_sources m type_name
  if sources.isEmpty then ""
  else
    "\n   = note: `" ++ type_name ++ "` appears in list context via: "
      ++ String.intercalate ", " sources

/-- The diagnostic message built by the `format!` in `validate_n_plus_one`
(validation.rs lines 54-58). -/
def nPlusOneMessage (m : ParsedModule) (type_name method_name : String) :
    String :=
  "N+1 query detected! `" ++ type_name ++ "::" ++ method_name
    ++ "` returns a list but is not batched.\n"
    ++ "\n   = note: `" ++ type_name
    ++ "` appears in list context, so resolvers returning lists can cause N+1"
    ++ contextHint m type_name ++ "\n"
    ++ "\n   = help: add #[batch(key = \"field\")] to enable batching"

/-- The `syn::Error` produced by `validate_n_plus_one`: the span carries the
offending type and method, the message is the formatted diagnostic. -/
structure NPlusOneError where
  type_name : String
  method_name : String
  message : String
deriving DecidableEq, Repr

/-- The violation check applied to one method of a flagged impl block
(validation.rs lines 37-60). -/
def violationOfMethod (m : ParsedModule) (type_name : String)
    (me : ParsedMethod) : Option NPlusOneError :=
  if me.is_list_return && me.batch_config.isNone then
    some ⟨type_name, me.name, nPlusOneMessage m type_name me.name⟩
  else none

/-- `validate_n_plus_one` (validation.rs lines 5-67): nested loops over impl
blocks and their methods with an early `return Err` on the first violating
method, translated as nested `findSome?`. -/
def validate_n_plus_one (m : ParsedModule) : Except NPlusOneError Unit :=
  match m.impls.findSome? (fun i =>
      if i.type_name == "Query" || i.type_name == "Mutation" then none
      else if (listContextTypes m).contains i.type_name then
        i.methods.findSome? (violationOfMethod m i.type_name)
      else none) with
  | some e => .error e
  | none => .ok ()

/-- All violations of one impl block, exhaustively. -/
def implViolations (m : ParsedModule) (i : ParsedImpl) : List NPlusOneError :=
  if i.type_name == "Query" || i.type_name == "Mutation" then []
  else if (listContextTypes m).contains i.type_name then
    i.methods.filterMap (violationOfMethod m i.type_name)
  else []

/-- Modelled from the spec: the exhaustive violation list the spec describes
("Violations are collected exhaustively"), used to compare the code's
first-violation behaviour against the spec's list semantics. -/
def specViolations (m : ParsedModule) : List NPlusOneError :=
  m.impls.flatMap (implViolations m)

/-- Spec-level predicate: type `t` is the target of at least one
List-cardinality edge of the module (a `Vec` struct field or a
list-returning resolver, including the container's own resolvers). -/
def ListReachable (m : ParsedModule) (t : String) : Prop :=
  (∃ s ∈ m.structs, ∃ f ∈ s.fields,
     f.is_list = true ∧ f.inner_type = some t) ∨
  (∃ i ∈ m.impls, ∃ me ∈ i.methods,
     me.is_list_return = true ∧ me.inner_return_type = some t)

/-- Spec-level predicate: resolver `r` of container `C` is an N+1
violation: `C` is list-reachable, `C` is not a root type (the spec's root
types are the types named `Query` and `Mutation`), and `r` returns a list
without a batch config. -/
def IsViolation (m : ParsedModule) (C r : String) : Prop :=
  ListReachable m C ∧ C ≠ "Query" ∧ C ≠ "Mutation" ∧
  ∃ i ∈ m.impls, i.type_name = C ∧ ∃ me ∈ i.methods,
    me.name = r ∧ me.is_list_return = true ∧ me.batch_config = none

/-- Projection of the analysis result to the reported (container, resolver)
pair, if any. -/
def reportedViolation : Except NPlusOneError Unit → Option (String × String)
  | .error e => some (e.type_name, e.method_name)
  | .ok _ => none

/-- The attribute data `parse_struct_attrs` (parse.rs lines 168-201)
extracts from a struct item: the `#[query]` / `#[mutation]` /
`#[subscription]` markers (directly or via `#[graphql(...)]`) and the
optional custom GraphQL name. -/
structure RawStruct where
  name : String
  attr_query : Bool
  attr_mutation : Bool
  attr_subscription : Bool
  attr_name : Option String
  fields : List ParsedField
deriving DecidableEq, Repr

/-- `parse_struct` (parse.rs lines 146-166): attribute markers are OR-ed
with the name-based convention. -/
def parse_struct (r : RawStruct) : ParsedStruct :=
  { name := r.name
    graphql_name := r.attr_name.getD r.name
    is_query := r.attr_query || r.name == "Query"
    is_mutation := r.attr_mutation || r.name == "Mutation"
    is_subscription := r.attr_subscription || r.name == "Subscription"
    fields := r.fields }

/-- The `#[batch(...)]` attribute after meta tokenization
(parse.rs lines 285-317): the optional `key` value and the `delay_ms`
value with its default of 1 already applied. -/
structure RawBatchAttr where
  key : Option String
  delay_ms : Nat
deriving DecidableEq, Repr

/-- A resolver method as seen by `parse_method` (parse.rs lines 252-283):
name, optional batch attribute, whether a return type is declared, and the
output of `analyze_return_type` on it. -/
structure RawMethod where
  name : String
  batch_attr : Option RawBatchAttr
  has_return_type : Bool
  is_list_return : Bool
  inner_return_type : Option String
deriving DecidableEq, Repr

/-- `parse_batch_attr` (parse.rs lines 285-317): an attribute without a
`key` is a parse error. -/
def parse_batch_attr : Option RawBatchAttr → Except String (Option BatchConfig)
  | none => .ok none
  | some a =>
    match a.key with
    | none =>
      .error "batch attribute requires `key` parameter: #[batch(key = \"field\")]"
    | some k => .ok (some ⟨k, a.delay_ms⟩)

/-- The `starts_with('_')` test of parse.rs line 255: whether the first
character of the string is an underscore. -/
def startsWithUnderscore (s : String) : Bool :=
  match s.data with
  | [] => false
  | c :: _ => c == '_'

/-- `parse_method` (parse.rs lines 252-283): a method whose name starts
with an underscore is skipped (`Ok(None)`). -/
def parse_method (r : RawMethod) : Except String (Option ParsedMethod) :=
  if startsWithUnderscore r.name then .ok none
  else
    match parse_batch_attr r.batch_attr with
    | .error s => .error s
    | .ok batch =>
      if r.has_return_type then
        .ok (some ⟨r.name, batch, r.is_list_return, r.inner_return_type⟩)
      else .error "Resolver must have a return type"

/-- The method loop of `parse_impl` (parse.rs lines 228-234): parsed
methods are pushed in order, skipped ones dropped, errors propagated. -/
def parse_methods : List RawMethod → Except String (List ParsedMethod)
  | [] => .ok []
  | r :: rest =>
    match parse_method r with
    | .error s => .error s
    | .ok none => parse_methods rest
    | .ok (some pm) =>
      match parse_methods rest with
      | .error s => .error s
      | .ok pms => .ok (pm :: pms)

/-- `parse_impl` (parse.rs lines 223-237). -/
def parse_impl (type_name : String) (ms : List RawMethod) :
    Except String ParsedImpl :=
  match parse_methods ms with
  | .error s => .error s
  | .ok pms => .ok ⟨type_name, pms⟩

/-- The impl loop of `parse_module` (parse.rs lines 124-136). -/
def parse_impls : List (String × List RawMethod) →
    Except String (List ParsedImpl)
  | [] => .ok []
  | p :: rest =>
    match parse_impl p.1 p.2 with
    | .error s => .error s
    | .ok i =>
      match parse_impls rest with
      | .error s => .error s
      | .ok tl => .ok (i :: tl)

/-- `parse_module` (parse.rs lines 111-144), from already-tokenized struct
and impl items. -/
def parse_module (ss : List RawStruct)
    (rimpls : List (String × List RawMethod)) :
    Except String ParsedModule :=
  match parse_impls rimpls with
  | .error s => .error s
  | .ok impls => .ok ⟨ss.map parse_struct, impls⟩

/-- The GraphQL field names `generate_impl_registration`
(codegen.rs lines 275-283) registers for a non-subscription impl block:
one field per parsed method. -/
def registeredFieldNames (i : ParsedImpl) : List String :=
  i.methods.map (fun pm => pm.name)

/-- The build errors `expand` can surface after parsing. -/
inductive ExpandError where
  | nPlusOne (e : NPlusOneError)
  | missingQueryRoot
deriving DecidableEq, Repr

/-- `ParsedModule::query_type` (parse.rs lines 67-71). -/
def query_type (m : ParsedModule) : Option ParsedStruct :=
  m.structs.find? (fun s => s.is_query || s.name == "Query")

/-- `generate_schema_struct` (codegen.rs lines 558-564) up to its only
fallible step, the missing-query-root check. -/
def generate_schema_struct (m : ParsedModule) : Except ExpandError Unit :=
  match query_type m with
  | some _ => .ok ()
  | none => .error .missingQueryRoot

/-- `generate` (codegen.rs lines 8-53): `generate_struct_impl`,
`generate_impl_registration` and the SDL autogen never return `Err`, so
the only fallible step is `generate_schema_struct`. -/
def generate (m : ParsedModule) : Except ExpandError Unit :=
  generate_schema_struct m

/-- `expand` (mod.rs lines 9-14) from an already-parsed module: N+1
validation first, then codegen. -/
def expand (m : ParsedModule) : Except ExpandError Unit :=
  match validate_n_plus_one m with
  | .error e => .error (.nPlusOne e)
  | .ok () => generate m

/-- A module with two distinct violating resolvers: `S.xs: Vec<A>` and
`S.ys: Vec<B>` make `A` and `B` list-reachable, and both `A::r1` and
`B::r2` return unbatched lists. -/
def M1 : ParsedModule :=
  { structs := [⟨"Query", "Query", true, false, false, []⟩,
                ⟨"S", "S", false, false, false,
                  [⟨"xs", true, some "A"⟩, ⟨"ys", true, some "B"⟩]⟩],
    impls := [⟨"A", [⟨"r1", none, true, some "X"⟩]⟩,
              ⟨"B", [⟨"r2", none, true, some "Y"⟩]⟩] }

/-- The first violation of `M1`. -/
def e1 : NPlusOneError := ⟨"A", "r1", nPlusOneMessage M1 "A" "r1"⟩

/-- The second violation of `M1`. -/
def e2 : NPlusOneError := ⟨"B", "r2", nPlusOneMessage M1 "B" "r2"⟩

/-- A module whose query root is attribute-marked (`#[query]` on `Root`)
rather than named `Query`; `Root` is list-reachable via `Author.roots` and
has an unbatched list resolver. -/
def M3 : ParsedModule :=
  { structs := [parse_struct ⟨"Root", true, false, false, none, []⟩,
                parse_struct ⟨"Author", false, false, false, none,
                  [⟨"roots", true, some "Root"⟩]⟩],
    impls := [⟨"Root", [⟨"items", none, true, some "Item"⟩]⟩] }

/-- The violation `validate_n_plus_one` reports on `M3`. -/
def e3 : NPlusOneError := ⟨"Root", "items", nPlusOneMessage M3 "Root" "items"⟩

/-- The spec's Author/Post scenario: `Author.posts: Vec<Post>` is a
declared list field, `Post::comments` returns an unbatched list of
`Comment`. -/
def MAP : ParsedModule :=
  { structs := [⟨"Query", "Query", true, false, false, []⟩,
                ⟨"Author", "Author", false, false, false,
                  [⟨"posts", true, some "Post"⟩]⟩,
                ⟨"Post", "Post", false, false, false,
                  [⟨"id", false, none⟩]⟩],
    impls := [⟨"Post", [⟨"comments", none, true, some "Comment"⟩]⟩] }

/-- A module with no query root and an N+1 violation. -/
def M5 : ParsedModule :=
  { structs := [⟨"S", "S", false, false, false, [⟨"xs", true, some "A"⟩]⟩],
    impls := [⟨"A", [⟨"r1", none, true, some "X"⟩]⟩] }

/-- The violation `validate_n_plus_one` reports on `M5`. -/
def e5 : NPlusOneError := ⟨"A", "r1", nPlusOneMessage M5 "A" "r1"⟩

/-- A module with no query root and no N+1 violation. -/
def M5w : ParsedModule :=
  { structs := [⟨"S", "S", false, false, false, []⟩], impls := [] }

/-- A raw resolver method with an underscore-prefixed name. -/
def rHidden : RawMethod := ⟨"_hidden", none, true, true, some "T"⟩

end Convoy

namespace Loader

/-- `PendingBatch` (loader.rs lines 12-16): accumulated keys, the
(key, completion-handle) pairs, and the flush-scheduled flag.  A
completion handle (`oneshot::Sender`) is identified by the sequence
number of the `load` call that created it. -/
structure PendingBatch (K : Type) where
  keys : List K
  senders : List (K × Nat)
  scheduled : Bool

/-- The `Default` impl of `PendingBatch` (loader.rs lines 18-26). -/
def PendingBatch.empty {K : Type} : PendingBatch K := ⟨[], [], false⟩

/-- The observable state of one loader key-space: the shared
`PendingBatch` cell, the next handle id, plus the history the spawned
flush tasks produce — each fetch invocation's key-list argument, each
swapped-out batch's sender list, and each value sent to a handle. -/
structure LoaderState (K V : Type) where
  pending : PendingBatch K
  nextId : Nat
  fetchLog : List (List K)
  flushed : List (List (K × Nat))
  resolved : List (Nat × V)

/-- A freshly constructed loader (loader.rs lines 45-51):
`PendingBatch::default()` behind the lock, nothing fetched or resolved. -/
def initState {K V : Type} : LoaderState K V :=
  ⟨PendingBatch.empty, 0, [], [], []⟩

/-- The critical section of `BatchLoader::load` under the lock
(loader.rs lines 60-66): push the key, push the (key, sender) pair, set
the scheduled flag. -/
def loadStep {K V : Type} (s : LoaderState K V) (k : K) : LoaderState K V :=
  { s with
    pending := ⟨s.pending.keys ++ [k], s.pending.senders ++ [(k, s.nextId)],
                true⟩,
    nextId := s.nextId + 1 }

/-- The body of the spawned flush task after its sleep
(loader.rs lines 75-91): `std::mem::take` swaps the batch for a fresh
default one; when the batch is empty the fetch is skipped entirely;
otherwise the loader function is invoked once with the accumulated keys
and each (key, sender) pair is sent the value the result map holds for
its key (senders whose key is absent are dropped unsent).  The fetch
result `HashMap<K, V>` is modelled by its lookup function. -/
def flushStep {K V : Type} (fetch : List K → K → Option V)
    (s : LoaderState K V) : LoaderState K V :=
  let batch := s.pending
  if batch.keys.isEmpty then
    { s with
      pending := PendingBatch.empty,
      flushed := s.flushed ++ [batch.senders] }
  else
    let results := fetch batch.keys
    { s with
      pending := PendingBatch.empty,
      flushed := s.flushed ++ [batch.senders],
      fetchLog := s.fetchLog ++ [batch.keys],
      resolved := s.resolved ++ batch.senders.filterMap
        (fun kv => (results kv.1).map (fun v => (kv.2, v))) }

/-- One externally visible event of a key-space: a `load` call's critical
section, or a flush task firing.  The flush carries the fetch function it
awaits: the loader's own for `BatchLoader`, the first caller's closure for
`SimpleBatchLoader::load_with`. -/
inductive LEvent (K V : Type) where
  | load (k : K)
  | flush (fetch : List K → K → Option V)

/-- One step of the key-space. -/
def step {K V : Type} (s : LoaderState K V) : LEvent K V → LoaderState K V
  | .load k => loadStep s k
  | .flush f => flushStep f s

/-- Run a sequence of events from a state. -/
def runEvents {K V : Type} (evs : List (LEvent K V)) (s : LoaderState K V) :
    LoaderState K V :=
  evs.foldl step s

/-- `rx.await.ok()` (loader.rs line 95) for the `load` call with handle id
`id`, after the flush of its batch completed: the value its sender was
sent, or `None` when the sender was dropped without a send. -/
def loadResult {K V : Type} (s : LoaderState K V) (id : Nat) : Option V :=
  s.resolved.lookup id

/-- `load_or_default` (loader.rs lines 98-103), with `V::default()`
passed explicitly as `d`. -/
def loadOrDefaultResult {K V : Type} (s : LoaderState K V) (id : Nat)
    (d : V) : V :=
  (loadResult s id).getD d

/-- The state after one full accumulation window: `load` calls for `ks`
followed by the window's flush with fetch function `f`. -/
def windowRun {K V : Type} (ks : List K) (f : List K → K → Option V) :
    LoaderState K V :=
  runEvents (ks.map LEvent.load ++ [LEvent.flush f]) initState

/-- Modelled from the spec: the expected fetch invocations, one per
accumulation window — for each flush, the key list accumulated since the
previous swap, in registration order, kept only when non-empty. -/
def specWindowFetches {K V : Type} :
    List (LEvent K V) → List K → List (List K)
  | [], _ => []
  | .load k :: rest, acc => specWindowFetches rest (acc ++ [k])
  | .flush _ :: rest, acc =>
    (if acc.isEmpty then [] else [acc]) ++ specWindowFetches rest []

/-- The (key, handle-id) registrations a list of events performs, handle
ids counted from `n`. -/
def registrations {K V : Type} :
    List (LEvent K V) → Nat → List (K × Nat)
  | [], _ => []
  | .load k :: rest, n => (k, n) :: registrations rest (n + 1)
  | .flush _ :: rest, n => registrations rest n

/-- The (key, handle-id) pairs a run of `load` calls for `ks` appends,
ids counted from `n`. -/
def indexedFrom {K : Type} : List K → Nat → List (K × Nat)
  | [], _ => []
  | k :: rest, n => (k, n) :: indexedFrom rest (n + 1)

/-- The fetch function of the spec's end-to-end loader scenario:
`fetch(keys) = keys.map(k => (k, "v" + k))`, modelled by the lookup
function of that map. -/
def fetchV : List Nat → Nat → Option String :=
  fun keys k => if keys.contains k then some ("v" ++ toString k) else none

end Loader

namespace Convoy

theorem findSome?_eq_head?_filterMap {α β : Type} (f : α → Option β)
    (l : List α) : l.findSome? f = (l.filterMap f).head? := by
  induction l with
  | nil => rfl
  | cons a l ih =>
    rw [List.findSome?_cons, List.filterMap_cons]
    cases h : f a
    · exact ih
    · rfl

theorem head?_flatMap {α β : Type} (g : α → List β) (l : List α) :
    (l.flatMap g).head? = l.findSome? (fun a => (g a).head?) := by
  induction l with
  | nil => rfl
  | cons a l ih =>
    rw [List.flatMap_cons, List.head?_append, List.findSome?_cons]
    cases h : (g a).head?
    · rw [Option.none_or, ih]
    · rfl

/-- The analysis result is determined by the head of the exhaustive violation
list: `Ok` when it is empty, `Err` of its first element otherwise. -/
theorem validate_eq_head (m : ParsedModule) :
    validate_n_plus_one m =
      match (specViolations m).head? with
      | some e => Except.error e
      | none => Except.ok () := by
  have hfn : ∀ i : ParsedImpl,
      (if i.type_name == "Query" || i.type_name == "Mutation" then none
       else if (listContextTypes m).contains i.type_name then
         i.methods.findSome? (violationOfMethod m i.type_name)
       else none) = (implViolations m i).head? := by
    intro i
    unfold implViolations
    by_cases h1 : (i.type_name == "Query" || i.type_name == "Mutation") = true
    · rw [if_pos h1, if_pos h1]
      rfl
    · rw [if_neg h1, if_neg h1]
      by_cases h2 : (listContextTypes m).contains i.type_name = true
      · rw [if_pos h2, if_pos h2]
        exact findSome?_eq_head?_filterMap _ _
      · rw [if_neg h2, if_neg h2]
        rfl
  unfold validate_n_plus_one specViolations
  simp only [hfn, ← head?_flatMap]

theorem if_then_none_eq_some {α : Type} {c : Bool} {o : Option α} {x : α} :
    (if c then o else none) = some x ↔ c = true ∧ o = some x := by
  cases c <;> simp

theorem mem_listContextTypes (m : ParsedModule) (t : String) :
    t ∈ listContextTypes m ↔ ListReachable m t := by
  unfold listContextTypes ListReachable
  simp only [List.mem_append, List.mem_flatMap, List.mem_filterMap,
    if_then_none_eq_some]

theorem violationOfMethod_eq_some (m : ParsedModule) (tn : String)
    (me : ParsedMethod) (e : NPlusOneError) :
    violationOfMethod m tn me = some e ↔
      me.is_list_return = true ∧ me.batch_config = none ∧
        e = ⟨tn, me.name, nPlusOneMessage m tn me.name⟩ := by
  unfold violationOfMethod
  cases hl : me.is_list_return <;> cases hb : me.batch_config <;>
    simp [hl, hb, eq_comm]

theorem mem_specViolations (m : ParsedModule) (e : NPlusOneError) :
    e ∈ specViolations m ↔
      ∃ i ∈ m.impls, i.type_name ≠ "Query" ∧ i.type_name ≠ "Mutation" ∧
        i.type_name ∈ listContextTypes m ∧
        ∃ me ∈ i.methods, violationOfMethod m i.type_name me = some e := by
  unfold specViolations
  simp only [List.mem_flatMap]
  constructor
  · rintro ⟨i, hi, hmem⟩
    by_cases h1 : (i.type_name == "Query" || i.type_name == "Mutation") = true
    · rw [implViolations, if_pos h1] at hmem
      exact absurd hmem (List.not_mem_nil _)
    · by_cases h2 : (listContextTypes m).contains i.type_name = true
      · rw [implViolations, if_neg h1, if_pos h2, List.mem_filterMap] at hmem
        obtain ⟨me, hme, hv⟩ := hmem
        refine ⟨i, hi, ?_, ?_, ?_, me, hme, hv⟩
        · intro hq
          exact h1 (by rw [hq]; rfl)
        · intro hq
          exact h1 (by rw [hq]; rfl)
        · exact List.elem_iff.mp h2
      · rw [implViolations, if_neg h1, if_neg h2] at hmem
        exact absurd hmem (List.not_mem_nil _)
  · rintro ⟨i, hi, hq, hmu, hct, me, hme, hv⟩
    refine ⟨i, hi, ?_⟩
    have h1 : ¬ (i.type_name == "Query" || i.type_name == "Mutation") = true := by
      intro h
      rcases Bool.or_eq_true_iff.mp h with h | h
      · exact hq (eq_of_beq h)
      · exact hmu (eq_of_beq h)
    have h2 : (listContextTypes m).contains i.type_name = true :=
      List.elem_iff.mpr hct
    rw [implViolations, if_neg h1, if_pos h2, List.mem_filterMap]
    exact ⟨me, hme, hv⟩

theorem isViolation_iff_mem (m : ParsedModule) (C r : String) :
    IsViolation m C r ↔
      ∃ e ∈ specViolations m, e.type_name = C ∧ e.method_name = r := by
  constructor
  · rintro ⟨hreach, hq, hmu, i, hi, hC, me, hme, hr, hl, hb⟩
    refine ⟨⟨C, r, nPlusOneMessage m C r⟩, ?_, rfl, rfl⟩
    rw [mem_specViolations]
    refine ⟨i, hi, hC ▸ hq, hC ▸ hmu, ?_, me, hme, ?_⟩
    · rw [hC, mem_listContextTypes]
      exact hreach
    · rw [violationOfMethod_eq_some]
      exact ⟨hl, hb, by rw [hC, hr]⟩
  · rintro ⟨e, hmem, hC, hr⟩
    rw [mem_specViolations] at hmem
    obtain ⟨i, hi, hq, hmu, hct, me, hme, hv⟩ := hmem
    rw [violationOfMethod_eq_some] at hv
    obtain ⟨hl, hb, he⟩ := hv
    subst he
    have hC' : i.type_name = C := hC
    have hr' : me.name = r := hr
    refine ⟨?_, hC' ▸ hq, hC' ▸ hmu, i, hi, hC', me, hme, hr', hl, hb⟩
    rw [← hC']
    exact (mem_listContextTypes m i.type_name).mp hct

theorem mem_of_head?_eq_some {α : Type} {l : List α} {a : α}
    (h : l.head? = some a) : a ∈ l := by
  cases l with
  | nil => cases h
  | cons b t =>
    rw [List.head?_cons, Option.some_inj] at h
    rw [← h]
    exact List.mem_cons_self b t

theorem error_mem_specViolations {m : ParsedModule} {e : NPlusOneError}
    (h : validate_n_plus_one m = .error e) : e ∈ specViolations m := by
  rw [validate_eq_head] at h
  cases hh : (specViolations m).head? with
  | none => rw [hh] at h; cases h
  | some e' =>
    rw [hh] at h
    have he : e' = e := by injection h
    exact he ▸ mem_of_head?_eq_some hh

/-- C1 counterexample: module `M1` contains two distinct violating
resolvers (`A::r1` and `B::r2`), but `validate_n_plus_one` reports only
the first one: the analysis does not report every violation as a list. -/
theorem validate_not_exhaustive_cex :
    (specViolations M1).map (fun e => (e.type_name, e.method_name)) =
      [("A", "r1"), ("B", "r2")] ∧
    reportedViolation (validate_n_plus_one M1) = some ("A", "r1") :=
  ⟨rfl, rfl⟩

/-- C1 amended: `validate_n_plus_one` short-circuits: it returns `Ok` when
the exhaustive violation list is empty and otherwise an error carrying
only the first violation, in impl-block and method order. -/
theorem validate_reports_only_first_violation (m : ParsedModule) :
    (specViolations m = [] → validate_n_plus_one m = .ok ()) ∧
    (∀ e rest, specViolations m = e :: rest →
      validate_n_plus_one m = .error e) := by
  constructor
  · intro h
    rw [validate_eq_head, h]
    rfl
  · intro e rest h
    rw [validate_eq_head, h]
    rfl

/-- Witness for the C1 amended theorem at module `M1`. -/
theorem validate_reports_only_first_violation_witness :
    validate_n_plus_one M1 = .error e1 :=
  (validate_reports_only_first_violation M1).2 e1 [e2] rfl

/-- C2: `validate_n_plus_one` errors iff some resolver of some container
is a violation (container list-reachable, not a root type, resolver has
list return and no batch config), the reported pair is itself such a
violation, and the analysis returns `Ok` iff no violating resolver
exists. -/
theorem validate_error_iff_violation (m : ParsedModule) :
    (validate_n_plus_one m = .ok () ↔ ¬ ∃ C r, IsViolation m C r) ∧
    (∀ e, validate_n_plus_one m = .error e →
      IsViolation m e.type_name e.method_name) := by
  constructor
  · constructor
    · rintro hok ⟨C, r, hviol⟩
      rw [isViolation_iff_mem] at hviol
      obtain ⟨e, hmem, -, -⟩ := hviol
      rw [validate_eq_head] at hok
      cases hh : (specViolations m).head? with
      | some e' => rw [hh] at hok; cases hok
      | none =>
        rw [List.head?_eq_none_iff] at hh
        rw [hh] at hmem
        exact absurd hmem (List.not_mem_nil _)
    · intro hnov
      rw [validate_eq_head]
      cases hh : (specViolations m).head? with
      | some e' =>
        exact absurd ⟨e'.type_name, e'.method_name,
          (isViolation_iff_mem m e'.type_name e'.method_name).mpr
            ⟨e', mem_of_head?_eq_some hh, rfl, rfl⟩⟩ hnov
      | none => rfl
  · intro e herr
    exact (isViolation_iff_mem m e.type_name e.method_name).mpr
      ⟨e, error_mem_specViolations herr, rfl, rfl⟩

/-- Witness for C2 at module `M1`: the reported pair `(A, r1)` is a
violation. -/
theorem validate_error_iff_violation_witness : IsViolation M1 "A" "r1" :=
  (validate_error_iff_violation M1).2 e1 rfl

/-- C3 counterexample: in `M3` the struct `Root` is a query root via the
`#[query]` attribute (its `is_query` flag is set by `parse_struct`), yet
`validate_n_plus_one` reports a violation whose container is `Root`:
attribute-marked root types are not exempt. -/
theorem attr_root_not_exempt_cex :
    (parse_struct ⟨"Root", true, false, false, none, []⟩).is_query = true ∧
    M3.structs.head? =
      some (parse_struct ⟨"Root", true, false, false, none, []⟩) ∧
    reportedViolation (validate_n_plus_one M3) = some ("Root", "items") :=
  ⟨rfl, rfl, rfl⟩

/-- C3 amended: the root exemption is by name only: `validate_n_plus_one`
never reports a violation whose container is named `Query` or `Mutation`,
but a root type marked via attribute under another name is not exempt. -/
theorem validate_exempts_only_named_roots (m : ParsedModule)
    (e : NPlusOneError) (h : validate_n_plus_one m = .error e) :
    e.type_name ≠ "Query" ∧ e.type_name ≠ "Mutation" := by
  have hmem := error_mem_specViolations h
  rw [mem_specViolations] at hmem
  obtain ⟨i, hi, hq, hmu, hct, me, hme, hv⟩ := hmem
  rw [violationOfMethod_eq_some] at hv
  obtain ⟨-, -, he⟩ := hv
  subst he
  exact ⟨hq, hmu⟩

/-- Witness for the C3 amended theorem at module `M3`. -/
theorem validate_exempts_only_named_roots_witness :
    validate_n_plus_one M3 = .error e3 ∧
    (e3.type_name ≠ "Query" ∧ e3.type_name ≠ "Mutation") :=
  ⟨rfl, validate_exempts_only_named_roots M3 e3 rfl⟩

/-- C4 counterexample: evidence edges are rendered with `Vec<...>`, not
`List<...>`: in the Author/Post scenario the single evidence line for the
`Post::comments` violation is `"Author.posts: Vec<Post>"`, not
`"Author.posts: List<Post>"`. -/
theorem evidence_vec_format_cex :
    find_list_context_sources MAP "Post" = ["Author.posts: Vec<Post>"] ∧
    "Author.posts: Vec<Post>" ≠ "Author.posts: List<Post>" ∧
    reportedViolation (validate_n_plus_one MAP) = some ("Post", "comments") :=
  ⟨rfl, by decide, rfl⟩

/-- C4 amended: every evidence line is rendered as
`"<container>.<field>: Vec<<target>>"` for a declared field edge or
`"<container>::<resolver>() -> Vec<<target>>"` for a resolver edge, and in
the Author/Post scenario the single violation for `Post::comments`
carries exactly the evidence line `"Author.posts: Vec<Post>"`. -/
theorem evidence_rendered_with_vec :
    (∀ (m : ParsedModule) (t line : String),
      line ∈ find_list_context_sources m t →
        (∃ c f, line = c ++ "." ++ f ++ ": Vec<" ++ t ++ ">") ∨
        (∃ c r, line = c ++ "::" ++ r ++ "() -> Vec<" ++ t ++ ">")) ∧
    find_list_context_sources MAP "Post" = ["Author.posts: Vec<Post>"] := by
  constructor
  · intro m t line hline
    unfold find_list_context_sources at hline
    rw [List.mem_append] at hline
    rcases hline with h | h
    · rw [List.mem_flatMap] at h
      obtain ⟨s, -, h⟩ := h
      rw [List.mem_filterMap] at h
      obtain ⟨f, -, heq⟩ := h
      rw [if_then_none_eq_some] at heq
      obtain ⟨-, heq⟩ := heq
      rw [Option.some_inj] at heq
      exact Or.inl ⟨s.name, f.name, heq.symm⟩
    · rw [List.mem_flatMap] at h
      obtain ⟨i, -, h⟩ := h
      rw [List.mem_filterMap] at h
      obtain ⟨me, -, heq⟩ := h
      rw [if_then_none_eq_some] at heq
      obtain ⟨-, heq⟩ := heq
      rw [Option.some_inj] at heq
      exact Or.inr ⟨i.type_name, me.name, heq.symm⟩
  · rfl

/-- Witness for the C4 amended theorem at the evidence line of the
Author/Post scenario. -/
theorem evidence_rendered_with_vec_witness :
    (∃ c f, "Author.posts: Vec<Post>" =
      c ++ "." ++ f ++ ": Vec<" ++ "Post" ++ ">") ∨
    (∃ c r, "Author.posts: Vec<Post>" =
      c ++ "::" ++ r ++ "() -> Vec<" ++ "Post" ++ ">") :=
  evidence_rendered_with_vec.1 MAP "Post" "Author.posts: Vec<Post>"
    (List.mem_cons_self _ _)

/-- C5 counterexample: `M5` lacks a query root AND contains an N+1
violation; `expand` reports the N+1 error, not the missing-query-root
error, so the structural check is not performed before the analysis. -/
theorem nPlusOne_before_missing_root_cex :
    query_type M5 = none ∧
    expand M5 = .error (.nPlusOne e5) ∧
    expand M5 ≠ .error .missingQueryRoot := by
  refine ⟨rfl, rfl, ?_⟩
  intro h
  injection h with h'
  cases h'

/-- C5 amended: the N+1 analysis runs before the missing-query-root check:
a module with no query root still fails expansion, and the error is the
missing-query-root error exactly when the N+1 analysis passes (otherwise
the N+1 error is reported instead). -/
theorem expand_fails_without_query_root (m : ParsedModule)
    (hq : query_type m = none) :
    expand m ≠ .ok () ∧
    (validate_n_plus_one m = .ok () → expand m = .error .missingQueryRoot) := by
  constructor
  · intro hok
    unfold expand at hok
    cases hv : validate_n_plus_one m with
    | error e => rw [hv] at hok; cases hok
    | ok u =>
      cases u
      rw [hv] at hok
      unfold generate generate_schema_struct at hok
      rw [hq] at hok
      cases hok
  · intro hvok
    unfold expand
    rw [hvok]
    unfold generate generate_schema_struct
    rw [hq]

/-- Witness for the C5 amended theorem at module `M5w`. -/
theorem expand_fails_without_query_root_witness :
    expand M5w = .error .missingQueryRoot ∧ expand M5w ≠ .ok () :=
  ⟨(expand_fails_without_query_root M5w rfl).2 rfl,
   (expand_fails_without_query_root M5w rfl).1⟩

theorem parse_method_ok_some {r : RawMethod} {pm : ParsedMethod}
    (h : parse_method r = .ok (some pm)) :
    pm.name = r.name ∧ startsWithUnderscore r.name = false := by
  unfold parse_method at h
  by_cases hu : startsWithUnderscore r.name = true
  · rw [if_pos hu] at h
    injection h with h'
    cases h'
  · rw [if_neg hu] at h
    cases hb : parse_batch_attr r.batch_attr with
    | error s => rw [hb] at h; cases h
    | ok batch =>
      rw [hb] at h
      dsimp only at h
      by_cases hr : r.has_return_type = true
      · rw [if_pos hr] at h
        injection h with h'
        injection h' with h''
        rw [← h'']
        exact ⟨rfl, Bool.not_eq_true _ ▸ hu⟩
      · rw [if_neg hr] at h; cases h

theorem mem_parse_methods {ms : List RawMethod} {pms : List ParsedMethod}
    (h : parse_methods ms = .ok pms) :
    ∀ pm ∈ pms, ∃ r ∈ ms, parse_method r = .ok (some pm) := by
  induction ms generalizing pms with
  | nil =>
    injection h with h'
    intro pm hpm
    rw [← h'] at hpm
    exact absurd hpm (List.not_mem_nil _)
  | cons r rest ih =>
    unfold parse_methods at h
    cases hp : parse_method r with
    | error s => rw [hp] at h; cases h
    | ok o =>
      cases o with
      | none =>
        rw [hp] at h
        intro pm hpm
        obtain ⟨r', hr', hpm'⟩ := ih h pm hpm
        exact ⟨r', List.mem_cons_of_mem _ hr', hpm'⟩
      | some pm0 =>
        rw [hp] at h
        cases hrest : parse_methods rest with
        | error s => rw [hrest] at h; cases h
        | ok pms' =>
          rw [hrest] at h
          injection h with h'
          intro pm hpm
          rw [← h'] at hpm
          rcases List.mem_cons.mp hpm with heq | hmem
          · refine ⟨r, List.mem_cons_self _ _, ?_⟩
            rw [heq]
            exact hp
          · obtain ⟨r', hr', h3⟩ := ih hrest pm hmem
            exact ⟨r', List.mem_cons_of_mem _ hr', h3⟩

theorem parse_impl_no_underscore {tn : String} {ms : List RawMethod}
    {i : ParsedImpl} (h : parse_impl tn ms = .ok i) :
    ∀ pm ∈ i.methods, startsWithUnderscore pm.name = false := by
  unfold parse_impl at h
  cases hp : parse_methods ms with
  | error s => rw [hp] at h; cases h
  | ok pms =>
    rw [hp] at h
    injection h with h'
    intro pm hpm
    rw [← h'] at hpm
    obtain ⟨r, -, hr⟩ := mem_parse_methods hp pm hpm
    obtain ⟨hname, hus⟩ := parse_method_ok_some hr
    rw [hname]
    exact hus

theorem parse_impls_no_underscore {ri : List (String × List RawMethod)}
    {impls : List ParsedImpl} (h : parse_impls ri = .ok impls) :
    ∀ i ∈ impls, ∀ pm ∈ i.methods, startsWithUnderscore pm.name = false := by
  induction ri generalizing impls with
  | nil =>
    injection h with h'
    intro i hi
    rw [← h'] at hi
    exact absurd hi (List.not_mem_nil _)
  | cons p rest ih =>
    unfold parse_impls at h
    cases h1 : parse_impl p.1 p.2 with
    | error s => rw [h1] at h; cases h
    | ok i0 =>
      rw [h1] at h
      cases h2 : parse_impls rest with
      | error s => rw [h2] at h; cases h
      | ok tl =>
        rw [h2] at h
        injection h with h'
        intro i hi
        rw [← h'] at hi
        rcases List.mem_cons.mp hi with heq | hmem
        · rw [heq]
          exact parse_impl_no_underscore h1
        · exact ih h2 i hmem

/-- C10: a method whose name begins with an underscore is skipped by
`parse_method` (`Ok(None)`), hence absent from every parsed impl block of
`parse_module`; consequently `validate_n_plus_one` never reports an
underscore-named resolver for such a module, and no underscore-named
method is among the registered GraphQL field names. -/
theorem underscore_methods_excluded :
    (∀ r : RawMethod, startsWithUnderscore r.name = true →
      parse_method r = .ok none) ∧
    (∀ (ss : List RawStruct) (ri : List (String × List RawMethod))
        (m : ParsedModule), parse_module ss ri = .ok m →
      ∀ i ∈ m.impls, ∀ pm ∈ i.methods, startsWithUnderscore pm.name = false) ∧
    (∀ (m : ParsedModule) (e : NPlusOneError),
      (∀ i ∈ m.impls, ∀ pm ∈ i.methods, startsWithUnderscore pm.name = false) →
      validate_n_plus_one m = .error e →
      startsWithUnderscore e.method_name = false) ∧
    (∀ (tn : String) (ms : List RawMethod) (i : ParsedImpl),
      parse_impl tn ms = .ok i →
      ∀ n ∈ registeredFieldNames i, startsWithUnderscore n = false) := by
  refine ⟨?_, ?_, ?_, ?_⟩
  · intro r h
    unfold parse_method
    rw [if_pos h]
  · intro ss ri m h i hi pm hpm
    unfold parse_module at h
    cases hp : parse_impls ri with
    | error s => rw [hp] at h; cases h
    | ok impls =>
      rw [hp] at h
      injection h with h'
      rw [← h'] at hi
      exact parse_impls_no_underscore hp i hi pm hpm
  · intro m e hno herr
    have hmem := error_mem_specViolations herr
    rw [mem_specViolations] at hmem
    obtain ⟨i, hi, -, -, -, me, hme, hv⟩ := hmem
    rw [violationOfMethod_eq_some] at hv
    obtain ⟨-, -, he⟩ := hv
    subst he
    exact hno i hi me hme
  · intro tn ms i h n hn
    unfold registeredFieldNames at hn
    rw [List.mem_map] at hn
    obtain ⟨pm, hpm, hname⟩ := hn
    rw [← hname]
    exact parse_impl_no_underscore h pm hpm

/-- Witness for C10 at a concrete underscore-named method. -/
theorem underscore_methods_excluded_witness :
    parse_method rHidden = .ok none :=
  underscore_methods_excluded.1 rHidden (by decide)

end Convoy

namespace Loader

theorem runEvents_cons {K V : Type} (e : LEvent K V) (evs : List (LEvent K V))
    (s : LoaderState K V) :
    runEvents (e :: evs) s = runEvents evs (step s e) := rfl

theorem windowRun_eq {K V : Type} (ks : List K) (f : List K → K → Option V) :
    windowRun ks f = flushStep f (runEvents (ks.map LEvent.load) initState) := by
  unfold windowRun runEvents
  rw [List.foldl_append]
  rfl

theorem fetchLog_runEvents {K V : Type} (evs : List (LEvent K V)) :
    ∀ s : LoaderState K V,
      (runEvents evs s).fetchLog =
        s.fetchLog ++ specWindowFetches evs s.pending.keys := by
  induction evs with
  | nil => intro s; simp [runEvents, specWindowFetches]
  | cons e rest ih =>
    intro s
    cases e with
    | load k =>
      rw [runEvents_cons, ih]
      simp [step, loadStep, specWindowFetches]
    | flush f =>
      rw [runEvents_cons, ih]
      by_cases h : s.pending.keys.isEmpty = true
      · simp [step, flushStep, h, specWindowFetches, PendingBatch.empty]
      · simp [step, flushStep, h, specWindowFetches, PendingBatch.empty]

theorem specWindowFetches_window {K V : Type} (ks : List K)
    (f : List K → K → Option V) :
    ∀ acc : List K,
      specWindowFetches (ks.map LEvent.load ++ [LEvent.flush f]) acc =
        if (acc ++ ks).isEmpty then [] else [acc ++ ks] := by
  induction ks with
  | nil =>
    intro acc
    rw [List.append_nil]
    simp [specWindowFetches]
  | cons k rest ih =>
    intro acc
    rw [List.map_cons, List.cons_append]
    show specWindowFetches (rest.map LEvent.load ++ [LEvent.flush f])
      (acc ++ [k]) = _
    rw [ih (acc ++ [k])]
    simp

theorem allPairs_runEvents {K V : Type} (evs : List (LEvent K V)) :
    ∀ s : LoaderState K V,
      (runEvents evs s).flushed.flatten ++ (runEvents evs s).pending.senders =
        (s.flushed.flatten ++ s.pending.senders) ++
          registrations evs s.nextId := by
  induction evs with
  | nil => intro s; simp [runEvents, registrations]
  | cons e rest ih =>
    intro s
    cases e with
    | load k =>
      rw [runEvents_cons, ih]
      simp [step, loadStep, registrations]
    | flush f =>
      rw [runEvents_cons, ih]
      by_cases h : s.pending.keys.isEmpty = true
      · simp [step, flushStep, h, registrations, PendingBatch.empty]
      · simp [step, flushStep, h, registrations, PendingBatch.empty]

theorem runEvents_loads {K V : Type} (ks : List K) :
    ∀ s : LoaderState K V,
      (runEvents (ks.map LEvent.load) s).pending.keys =
        s.pending.keys ++ ks ∧
      (runEvents (ks.map LEvent.load) s).pending.senders =
        s.pending.senders ++ indexedFrom ks s.nextId ∧
      (runEvents (ks.map LEvent.load) s).resolved = s.resolved := by
  induction ks with
  | nil =>
    intro s
    exact ⟨by simp [runEvents, indexedFrom], by simp [runEvents, indexedFrom],
      rfl⟩
  | cons k rest ih =>
    intro s
    obtain ⟨h1, h2, h3⟩ := ih (loadStep s k)
    rw [List.map_cons]
    refine ⟨?_, ?_, ?_⟩
    · rw [runEvents_cons]
      show (runEvents (rest.map LEvent.load) (loadStep s k)).pending.keys = _
      rw [h1]
      simp [loadStep]
    · rw [runEvents_cons]
      show (runEvents (rest.map LEvent.load) (loadStep s k)).pending.senders = _
      rw [h2]
      simp [loadStep, indexedFrom]
    · rw [runEvents_cons]
      exact h3

theorem lookup_indexedFrom_filterMap_lt {K V : Type} (results : K → Option V)
    (ks : List K) :
    ∀ n m : Nat, m < n →
      ((indexedFrom ks n).filterMap
        (fun kv => (results kv.1).map (fun v => (kv.2, v)))).lookup m =
        none := by
  induction ks with
  | nil => intro n m h; rfl
  | cons k rest ih =>
    intro n m h
    show ((indexedFrom (k :: rest) n).filterMap _).lookup m = none
    rw [indexedFrom, List.filterMap_cons]
    cases hr : results k with
    | none =>
      dsimp only [hr, Option.map_none']
      exact ih (n + 1) m (Nat.lt_succ_of_lt h)
    | some v =>
      dsimp only [hr, Option.map_some']
      have hne : (m == n) = false := by
        simp only [beq_eq_false_iff_ne, ne_eq]
        omega
      rw [List.lookup_cons, hne]
      exact ih (n + 1) m (Nat.lt_succ_of_lt h)

theorem lookup_indexedFrom_filterMap {K V : Type} (results : K → Option V)
    (ks : List K) :
    ∀ (n i : Nat) (h : i < ks.length),
      ((indexedFrom ks n).filterMap
        (fun kv => (results kv.1).map (fun v => (kv.2, v)))).lookup (n + i) =
        results (ks.get ⟨i, h⟩) := by
  induction ks with
  | nil => intro n i h; exact absurd h (Nat.not_lt_zero i)
  | cons k rest ih =>
    intro n i h
    rw [indexedFrom, List.filterMap_cons]
    cases i with
    | zero =>
      cases hr : results k with
      | none =>
        dsimp only [hr, Option.map_none']
        rw [Nat.add_zero,
          lookup_indexedFrom_filterMap_lt results rest (n + 1) n
            (Nat.lt_succ_self n)]
        exact hr.symm
      | some v =>
        dsimp only [hr, Option.map_some']
        rw [Nat.add_zero, List.lookup_cons]
        have : (n == n) = true := by simp
        rw [this]
        exact hr.symm
    | succ j =>
      have hstep : n + (j + 1) = (n + 1) + j := by omega
      cases hr : results k with
      | none =>
        dsimp only [hr, Option.map_none']
        rw [hstep, ih (n + 1) j (Nat.lt_of_succ_lt_succ h)]
        rfl
      | some v =>
        dsimp only [hr, Option.map_some']
        have hne : ((n + (j + 1)) == n) = false := by
          simp only [beq_eq_false_iff_ne, ne_eq]
          omega
        rw [List.lookup_cons, hne, hstep,
          ih (n + 1) j (Nat.lt_of_succ_lt_succ h)]
        rfl

theorem loadResult_windowRun {K V : Type} (ks : List K)
    (f : List K → K → Option V) (i : Nat) (h : i < ks.length) :
    loadResult (windowRun ks f) i = f ks (ks.get ⟨i, h⟩) := by
  rw [windowRun_eq]
  obtain ⟨hk, hs, hr⟩ := runEvents_loads ks (@initState K V)
  have hk' : (runEvents (ks.map (@LEvent.load K V))
      (@initState K V)).pending.keys = ks := by
    rw [hk]
    rfl
  have hs' : (runEvents (ks.map (@LEvent.load K V))
      (@initState K V)).pending.senders = indexedFrom ks 0 := by
    rw [hs]
    rfl
  have hr' : (runEvents (ks.map (@LEvent.load K V))
      (@initState K V)).resolved = ([] : List (Nat × V)) := hr
  have hne : ks.isEmpty = false := by
    cases ks with
    | nil => exact absurd h (Nat.not_lt_zero i)
    | cons a t => rfl
  simp only [flushStep, loadResult]
  rw [hk', hs', hr', hne]
  simp only [Bool.false_eq_true, if_false, List.nil_append]
  have hl := lookup_indexedFrom_filterMap (f ks) ks 0 i h
  rw [Nat.zero_add] at hl
  exact hl

/-- C6: the fetch function is invoked exactly once per accumulation
window, never zero times for a non-empty window and never twice: over any
event sequence the fetch log equals the non-empty per-window key lists,
and for a single window of `N ≥ 1` load calls the log is exactly one
invocation whose argument is the registration-ordered key list
(duplicates preserved, length `N`). -/
theorem fetch_invoked_once_per_window :
    (∀ (K V : Type) (evs : List (LEvent K V)),
      (runEvents evs initState).fetchLog = specWindowFetches evs []) ∧
    (∀ (K V : Type) (ks : List K) (f : List K → K → Option V),
      ks ≠ [] →
        (windowRun ks f).fetchLog = [ks] ∧
        (windowRun ks f).fetchLog.length = 1) := by
  constructor
  · intro K V evs
    rw [fetchLog_runEvents]
    rfl
  · intro K V ks f h
    have hlog : (windowRun ks f).fetchLog = [ks] := by
      unfold windowRun
      rw [fetchLog_runEvents, specWindowFetches_window]
      simp [h, initState, PendingBatch.empty]
    exact ⟨hlog, by rw [hlog]; rfl⟩

/-- Witness for C6 at a two-call window. -/
theorem fetch_invoked_once_per_window_witness :
    (windowRun [1, 2] fetchV).fetchLog = [[1, 2]] ∧
    (windowRun [1, 2] fetchV).fetchLog.length = 1 :=
  fetch_invoked_once_per_window.2 Nat String [1, 2] fetchV (by decide)

/-- C7: once the flush of its window has run, the `load` call with handle
id `i` resolves to exactly what the fetch result maps its key to: `Some v`
when the key is present with value `v`, `None` when the result omits the
key (no error, no hang), and `load_or_default` then yields the default
value. -/
theorem missing_key_resolves_none {K V : Type} (ks : List K)
    (f : List K → K → Option V) (i : Nat) (h : i < ks.length) (d : V) :
    loadResult (windowRun ks f) i = f ks (ks.get ⟨i, h⟩) ∧
    (f ks (ks.get ⟨i, h⟩) = none →
      loadResult (windowRun ks f) i = none ∧
      loadOrDefaultResult (windowRun ks f) i d = d) ∧
    (∀ v, f ks (ks.get ⟨i, h⟩) = some v →
      loadResult (windowRun ks f) i = some v) := by
  have hmain := loadResult_windowRun ks f i h
  refine ⟨hmain, ?_, ?_⟩
  · intro hnone
    have : loadResult (windowRun ks f) i = none := by rw [hmain, hnone]
    exact ⟨this, by unfold loadOrDefaultResult; rw [this]; rfl⟩
  · intro v hv
    rw [hmain, hv]

/-- Witness for C7: a window whose fetch result omits the key. -/
theorem missing_key_resolves_none_witness :
    loadResult (windowRun [5] (fun _ _ => (none : Option String))) 0 = none ∧
    loadOrDefaultResult (windowRun [5] (fun _ _ => (none : Option String)))
      0 "dflt" = "dflt" :=
  (missing_key_resolves_none [5] (fun _ _ => none) 0 (by decide) "dflt").2.1
    rfl

/-- C8: two `load` calls with the same key in one window hold independent
completion handles (their distinct ids), each fulfilled from the same
fetch-result entry for that key; concretely, `load(1)`, `load(2)`,
`load(1)` in one window with `fetch(keys) = keys.map(k => (k, "v"+k))`
resolve to `"v1"`, `"v2"`, `"v1"` with exactly one fetch invocation. -/
theorem duplicate_keys_fan_out :
    (∀ (K V : Type) (ks : List K) (f : List K → K → Option V) (i j : Nat)
        (hi : i < ks.length) (hj : j < ks.length),
      ks.get ⟨i, hi⟩ = ks.get ⟨j, hj⟩ →
        loadResult (windowRun ks f) i = loadResult (windowRun ks f) j) ∧
    (loadResult (windowRun [1, 2, 1] fetchV) 0 = some "v1" ∧
     loadResult (windowRun [1, 2, 1] fetchV) 1 = some "v2" ∧
     loadResult (windowRun [1, 2, 1] fetchV) 2 = some "v1" ∧
     (windowRun [1, 2, 1] fetchV).fetchLog = [[1, 2, 1]]) := by
  constructor
  · intro K V ks f i j hi hj hkey
    rw [loadResult_windowRun ks f i hi, loadResult_windowRun ks f j hj, hkey]
  · exact ⟨rfl, rfl, rfl, rfl⟩

/-- Witness for C8 at the duplicated key of the concrete scenario. -/
theorem duplicate_keys_fan_out_witness :
    loadResult (windowRun [1, 2, 1] fetchV) 0 =
      loadResult (windowRun [1, 2, 1] fetchV) 2 :=
  duplicate_keys_fan_out.1 Nat String [1, 2, 1] fetchV 0 2 (by decide)
    (by decide) rfl

/-- C9: every flush atomically swaps in a fresh empty `PendingBatch`
(empty keys, empty senders, scheduled flag cleared) before any fetch; a
flush that observes an empty batch performs no fetch; and over any event
sequence the swapped-out batches' sender lists concatenated with the
still-pending senders are exactly the (key, handle) registrations in
order — no load call is lost or double-counted across windows. -/
theorem flush_swaps_and_preserves_registrations :
    (∀ (K V : Type) (f : List K → K → Option V) (s : LoaderState K V),
      (flushStep f s).pending.keys = [] ∧
      (flushStep f s).pending.senders = [] ∧
      (flushStep f s).pending.scheduled = false) ∧
    (∀ (K V : Type) (f : List K → K → Option V) (s : LoaderState K V),
      s.pending.keys = [] → (flushStep f s).fetchLog = s.fetchLog) ∧
    (∀ (K V : Type) (evs : List (LEvent K V)),
      (runEvents evs initState).flushed.flatten ++
        (runEvents evs initState).pending.senders = registrations evs 0) := by
  refine ⟨?_, ?_, ?_⟩
  · intro K V f s
    unfold flushStep
    by_cases h : s.pending.keys.isEmpty = true <;>
      simp [h, PendingBatch.empty]
  · intro K V f s h
    have he : s.pending.keys.isEmpty = true := by rw [h]; rfl
    unfold flushStep
    simp [he]
  · intro K V evs
    rw [allPairs_runEvents]
    rfl

/-- Witness for C9: a flush of an empty batch performs no fetch. -/
theorem flush_swaps_and_preserves_registrations_witness :
    (flushStep (fun _ _ => (none : Option Nat)) (@initState Nat Nat)).fetchLog
      = (@initState Nat Nat).fetchLog :=
  flush_swaps_and_preserves_registrations.2.1 Nat Nat (fun _ _ => none)
    initState rfl

end Loader
